import Mathlib

/-!
Verification development for the PiepsLama decision-execution core.

Shallow embedding of the core components (event dispatcher priority queue,
queue manager state machine, execution contexts, error recovery engine,
response parser/validator, bot state manager) as executable Lean definitions,
with theorems settling the frozen behavioural claims.  Each definition is a
direct translation of the corresponding JavaScript function; JS-specific
behaviour (truthiness, extra-argument dropping, undefined identifiers) is
modelled explicitly where it matters and noted in the doc comments.
-/

namespace PiepsLama

/-- Helper: does pat occur as a contiguous sublist of l. -/
def charsInclude (pat : List Char) : List Char → Bool
  | [] => pat.isEmpty
  | c :: rest => pat.isPrefixOf (c :: rest) || charsInclude pat rest

/-- JS String.prototype.includes: true when pat occurs as a substring of s. -/
def strIncludes (s pat : String) : Bool :=
  charsInclude pat.toList s.toList

/- ===================== ErrorRecovery (src/unnamed/part_000) ===================== -/

/-- Error categories (ErrorCategories enum in ErrorRecovery.js). -/
inductive ErrorCategory
  | network | logic | resource | timing | validation | permission | unknown
deriving DecidableEq, Repr

/-- Recovery strategies (RecoveryStrategies enum in ErrorRecovery.js). -/
inductive RecoveryStrategy
  | retry | retryWithBackoff | fallback | abortAction | abortQueue
  | requestNewPlan | emergencyMode | reconnect | restartSystem | ignoreErr
deriving DecidableEq, Repr

/-- A JS Error as seen by ErrorRecovery: optional code, optional message,
and whether a syscall property is present. -/
structure JsError where
  code : Option String
  message : Option String
  syscall : Bool
deriving DecidableEq, Repr

/-- Result of ErrorRecovery.classifyError. -/
structure Classification where
  category : ErrorCategory
  severity : Nat
  knownPattern : Option String
deriving DecidableEq, Repr

/-- The static pattern table from ErrorRecovery._initializeErrorPatterns, in
object-literal insertion order (the order Object.entries iterates). Each entry:
pattern string, category, severity, declared strategy. -/
def errorPatterns : List (String × ErrorCategory × Nat × RecoveryStrategy) :=
  [ ("ECONNREFUSED", .network, 3, .reconnect),
    ("ETIMEDOUT", .network, 3, .retryWithBackoff),
    ("ENOTFOUND", .network, 4, .abortQueue),
    ("RESOURCE_NOT_FOUND", .resource, 2, .requestNewPlan),
    ("TARGET_NOT_FOUND", .resource, 1, .fallback),
    ("PATHFINDING_ERROR", .logic, 2, .fallback),
    ("noPath", .logic, 2, .requestNewPlan),
    ("INVALID_PARAMETER", .validation, 3, .abortAction),
    ("UNKNOWN_ACTION", .validation, 4, .abortQueue),
    ("TIMEOUT", .timing, 2, .retry),
    ("Action timeout", .timing, 2, .abortAction),
    ("Bot is dead", .logic, 4, .emergencyMode),
    ("Low health", .logic, 3, .emergencyMode) ]

/-- error.code === pattern || error.message?.includes(pattern). -/
def patternMatches (e : JsError) (pat : String) : Bool :=
  e.code == some pat ||
    (match e.message with
     | some m => strIncludes m pat
     | none => false)

/-- error.message?.includes(sub) as a Bool (false when message is undefined). -/
def msgHas (e : JsError) (sub : String) : Bool :=
  match e.message with
  | some m => strIncludes m sub
  | none => false

/-- JS String.prototype.startsWith. -/
def strStarts (s p : String) : Bool := p.toList.isPrefixOf s.toList

/-- error.code?.startsWith(p) as a Bool (false when code is undefined). -/
def codeStarts (e : JsError) (p : String) : Bool :=
  match e.code with
  | some c => strStarts c p
  | none => false

/-- ErrorRecovery.classifyError: first matching entry of the static pattern
table wins (checked against the code for equality and the message as a
substring), then the fallback heuristics in source order, else unknown/medium. -/
def classifyError (e : JsError) : Classification :=
  match errorPatterns.find? (fun p => patternMatches e p.1) with
  | some p => ⟨p.2.1, p.2.2.1, some p.1⟩
  | none =>
    if codeStarts e "E" && e.syscall then
      ⟨.network, 3, none⟩
    else if msgHas e "validation" || msgHas e "invalid" then
      ⟨.validation, 2, none⟩
    else if msgHas e "timeout" || msgHas e "timed out" then
      ⟨.timing, 2, none⟩
    else if msgHas e "not found" || msgHas e "no such" then
      ⟨.resource, 1, none⟩
    else
      ⟨.unknown, 2, none⟩

/-- ErrorRecovery.determineRecoveryStrategy, restricted to the inputs the
claims need: a known pattern's declared strategy wins; otherwise, with at
least three similar recent errors, escalate to requestNewPlan; otherwise the
category-based default. similarRecent counts history entries with the same
message or code inside the lookback window. -/
def determineRecoveryStrategy (cls : Classification)
    (similarRecent : Nat) (queueIsEmergency : Bool) : RecoveryStrategy :=
  match cls.knownPattern, errorPatterns.find? (fun p => some p.1 == cls.knownPattern) with
  | some _, some p => p.2.2.2
  | _, _ =>
    if 3 ≤ similarRecent then .requestNewPlan
    else if queueIsEmergency then
      if 3 ≤ cls.severity then .abortQueue else .retry
    else
      match cls.category with
      | .network => .retryWithBackoff
      | .validation => .abortAction
      | .resource => .fallback
      | .timing => .retry
      | .logic => .requestNewPlan
      | _ => .abortAction

/-- Outcome of ErrorRecovery.executeRecovery relevant to the retry claims. -/
structure RecoveryResult where
  action : String
  success : Bool
  shouldLearn : Bool
  delay : Option Int
deriving DecidableEq, Repr

/-- The retry/backoff arm of ErrorRecovery.executeRecovery, as a function of
the attempt count read from recoveryAttempts for the error's id.
maxRetryAttempts = 3; backoff delay = min(1000 * 2^attempts, 10000). -/
def executeRecoveryRetry (strategy : RecoveryStrategy) (attempts : Nat) : RecoveryResult :=
  match strategy with
  | .retry =>
    if attempts < 3 then ⟨"retry_action", true, false, none⟩
    else ⟨"max_retries_exceeded", false, true, none⟩
  | .retryWithBackoff =>
    if attempts < 3 then
      ⟨"retry_with_delay", true, false, some (min (1000 * 2 ^ attempts) 10000)⟩
    else ⟨"abort_action", false, true, none⟩
  | _ => ⟨"other", true, true, none⟩

/-- The attempt-tracking state of ErrorRecovery: the recoveryAttempts map,
keyed by errorId.  Ids are modelled as naturals; handleError draws a fresh
uuid for every call, modelled by a strictly increasing counter. -/
structure RecoveryState where
  attemptsMap : List (Nat × Nat)
  nextErrorId : Nat
deriving DecidableEq, Repr

def RecoveryState.initial : RecoveryState := ⟨[], 0⟩

/-- One handleError call for an error resolving to the given retry strategy:
a fresh errorId is generated (uuidv4 in the source), attempts is read from
recoveryAttempts under that fresh key, the map is bumped, executeRecovery
runs, and the entry is deleted when the result succeeded or the attempt
bound was reached. Returns the new state and the recovery result. -/
def handleErrorRetryStep (strategy : RecoveryStrategy) (s : RecoveryState) :
    RecoveryState × RecoveryResult :=
  let errorId := s.nextErrorId
  let attempts := ((s.attemptsMap.find? (fun kv => kv.1 == errorId)).map Prod.snd).getD 0
  let map1 := (errorId, attempts + 1) :: s.attemptsMap.filter (fun kv => kv.1 != errorId)
  let result := executeRecoveryRetry strategy attempts
  let map2 := if result.success || 3 ≤ attempts
    then map1.filter (fun kv => kv.1 != errorId) else map1
  (⟨map2, s.nextErrorId + 1⟩, result)

/-- Iterate n consecutive handleError calls for the same recurring error
(each call drawing a fresh errorId), collecting the results. -/
def handleErrorRetryRun (strategy : RecoveryStrategy) :
    Nat → RecoveryState → RecoveryState × List RecoveryResult
  | 0, s => (s, [])
  | n + 1, s =>
    let (s1, r) := handleErrorRetryStep strategy s
    let (s2, rs) := handleErrorRetryRun strategy n s1
    (s2, r :: rs)

/- ===================== BotStateManager (src/Queues/BotStateManager.js) ===================== -/

/-- The slice of BotStateManager state that updateHealth touches. -/
structure BSMHealthState where
  lastHealth : ℚ
  lastFood : ℚ
  lastDamageTime : Option Nat
deriving DecidableEq, Repr

/-- BotStateManager.updateHealth, translated statement by statement: the
changed flags are computed first, then state.lastHealth and state.lastFood
are overwritten, and only afterwards the damage branch compares health
against the (already overwritten) state.lastHealth. now stands for
Date.now(). -/
def updateHealth (s : BSMHealthState) (health food : ℚ) (now : Nat) : BSMHealthState :=
  let healthChanged := decide (s.lastHealth ≠ health)
  let foodChanged := decide (s.lastFood ≠ food)
  if !healthChanged && !foodChanged then s
  else
    let s1 : BSMHealthState := { s with lastHealth := health, lastFood := food }
    if healthChanged && decide (health < s1.lastHealth) then
      { s1 with lastDamageTime := some now }
    else s1

/- ===================== AiResponseParser / ActionValidator (src/unnamed/part_009) ===================== -/

/-- Validated parameter maps are opaque to the parser: it only moves them
around. Modelled as an association list of string key/value pairs. -/
abbrev Params : Type := List (String × String)

/-- An action object as produced by the planner.  Option fields model JS
properties that may be absent or undefined; a present-but-empty actionName
string is falsy in JS and is modelled by some with the empty string. -/
structure RawAction where
  actionName : Option String
  parameters : Option Params
  successCriteria : Option String
  timeoutMs : Option Int
  fallbackAction : Option String
deriving DecidableEq, Repr

/-- JS truthiness of an optional string (undefined and the empty string are
falsy). -/
def strTruthy : Option String → Bool
  | none => false
  | some s => !(s == "")

/-- Result of ActionValidator.validate. -/
structure ValidationResult where
  isValid : Bool
  reason : Option String
  validatedParams : Option Params
deriving DecidableEq, Repr

/-- An action after validateActionQueue rewrote it: parameters replaced by
the validator's validatedParams, defaulted successCriteria, normalized
timeoutMs and the original index recorded. -/
structure EnhancedAction where
  actionName : String
  parameters : Option Params
  successCriteria : String
  timeoutMs : Int
  fallbackAction : Option String
  originalIndex : Nat
deriving DecidableEq, Repr

/-- The LLMPlanValidationError object: the thrown message (which embeds the
failing index), the offending action and the specific reason. -/
structure PlanValidationError where
  message : String
  failedAction : RawAction
  reason : String
deriving DecidableEq, Repr

/-- The structure-check error thrown for index i. -/
def structureError (i : Nat) (a : RawAction) : PlanValidationError :=
  ⟨"Invalid action structure at index " ++ toString i, a,
    "Missing actionName or parameters"⟩

/-- The validator-rejection error thrown for index i (message interpolates
the action name, the index and the validator's reason; a null reason prints
as the string null in a JS template literal). -/
def rejectionError (i : Nat) (a : RawAction) (reason : Option String) : PlanValidationError :=
  ⟨"Plan rejected because action " ++ (a.actionName.getD "undefined") ++
      " at index " ++ toString i ++ " failed validation: " ++ (reason.getD "null"),
    a, reason.getD "null"⟩

/-- AiResponseParser.validateTimeout: a missing, non-numeric or zero (falsy)
timeout defaults to 30000, otherwise clamped to the interval from 1000 to
300000. -/
def validateTimeout : Option Int → Int
  | none => 30000
  | some t => if t = 0 then 30000 else max 1000 (min t 300000)

/-- The enhanced action built for index i from action a and its validation
result (the body of the loop in validateActionQueue after both checks pass). -/
def enhanceAction (i : Nat) (a : RawAction) (r : ValidationResult) : EnhancedAction :=
  { actionName := a.actionName.getD "undefined"
    parameters := r.validatedParams
    successCriteria :=
      if strTruthy a.successCriteria then a.successCriteria.getD ""
      else (a.actionName.getD "undefined") ++ " completed successfully"
    timeoutMs := validateTimeout a.timeoutMs
    fallbackAction := if strTruthy a.fallbackAction then a.fallbackAction else none
    originalIndex := i }

/-- The structure precondition checked at the top of the loop:
action.actionName and action.parameters are both truthy. -/
def structOk (a : RawAction) : Bool :=
  strTruthy a.actionName && a.parameters.isSome

/-- AiResponseParser.validateActionQueue as a recursion over the action
array, carrying the loop index i; validator stands for
this.actionValidator.validate applied to the fixed bot/state snapshot.
Throwing is modelled by Except.error, so on the first invalid entry the
whole round is rejected and none of the earlier validated actions are
returned. -/
def validateActionQueue (validator : RawAction → ValidationResult) :
    List RawAction → Nat → Except PlanValidationError (List EnhancedAction)
  | [], _ => .ok []
  | a :: rest, i =>
    if !(structOk a) then .error (structureError i a)
    else
      let r := validator a
      if !r.isValid then .error (rejectionError i a r.reason)
      else
        match validateActionQueue validator rest (i + 1) with
        | .ok tail => .ok (enhanceAction i a r :: tail)
        | .error e => .error e

/- ===================== StandardQueue (src/Queues/StandardQueue.js) ===================== -/

/-- The slice of StandardQueue state relevant to the pause/resume round
trip: the execution flags, the stored action queue and the current index. -/
structure SQState where
  isExecuting : Bool
  isPaused : Bool
  currentActionQueue : List EnhancedAction
  currentActionIndex : Nat
deriving DecidableEq, Repr

/-- StandardQueue.pause: a no-op unless executing and not yet paused;
otherwise only the isPaused flag is set (the state machine service is
stopped, which touches neither the queue nor the index). -/
def sqPause (s : SQState) : SQState :=
  if !s.isExecuting || s.isPaused then s
  else { s with isPaused := true }

/-- What resume decided to do with the stored queue. -/
inductive ResumeOutcome
  | continued
  | requestedNewPlan
  | ignored
deriving DecidableEq, Repr

/-- StandardQueue.resume: a no-op unless executing and paused; otherwise
clears isPaused and either continues the stored queue (executeActionQueue)
when it is non-empty, or requests a new plan. -/
def sqResume (s : SQState) : SQState × ResumeOutcome :=
  if !s.isExecuting || !s.isPaused then (s, .ignored)
  else
    let s1 : SQState := { s with isPaused := false }
    if 0 < s1.currentActionQueue.length then (s1, .continued)
    else (s1, .requestedNewPlan)

/-- The enhanced actions validateActionQueue returns for an all-valid
array, starting at loop index s: each entry rewritten by enhanceAction from
its own validation result. -/
def enhanceAll (validator : RawAction → ValidationResult) :
    Nat → List RawAction → List EnhancedAction
  | _, [] => []
  | s, a :: rest => enhanceAction s a (validator a) :: enhanceAll validator (s + 1) rest

/-- The action-execution loop of the StandardQueue state machine
(checkPause then executeAction then back), under the assumption that every
action succeeds and no further pause arrives: it executes the action at the
current index, increments the index and loops until the index reaches the
queue length.  Returns the list of actions executed, in order. -/
def sqRunTrace (q : List EnhancedAction) : Nat → List EnhancedAction
  | i =>
    if h : i < q.length then
      q.get ⟨i, h⟩ :: sqRunTrace q (i + 1)
    else []
termination_by i => q.length - i

/- ===================== QueueManager (src/Queues/QueueManager.js) ===================== -/

/-- The three execution-context classes. -/
inductive QueueKind
  | standard | emergency | respawn
deriving DecidableEq, Repr

/-- A context instance: its class plus an identity distinguishing separately
constructed objects (JS object identity).  The persistent StandardQueue is
the fixed instance with id 0; every EmergencyQueue or RespawnQueue the
manager constructs receives a fresh id. -/
structure Ctx where
  kind : QueueKind
  id : Nat
deriving DecidableEq, Repr

/-- The persistent standard queue created by QueueManager.initialize. -/
def stdCtx : Ctx := ⟨.standard, 0⟩

/-- QueueManager reference state: the activeQueue and pausedQueue slots and
the allocator for fresh context identities (ids 1 and up are the
constructed temporary contexts, in construction order). -/
structure QMState where
  activeQueue : Option Ctx
  pausedQueue : Option Ctx
  nextId : Nat
deriving DecidableEq, Repr

/-- State after initialize: no active or paused queue yet. -/
def qmInitial : QMState := ⟨none, none, 1⟩

/-- The construct-and-start tail of handleInterrupt: switch on
eventMessage.response.targetQueue.  For emergency and respawn a fresh
context is constructed and made active; any other value only logs an error
and changes nothing. -/
def startTargetQueue (s : QMState) (targetQueue : String) : QMState :=
  if targetQueue = "emergency" then
    { s with activeQueue := some ⟨.emergency, s.nextId⟩, nextId := s.nextId + 1 }
  else if targetQueue = "respawn" then
    { s with activeQueue := some ⟨.respawn, s.nextId⟩, nextId := s.nextId + 1 }
  else s

/-- QueueManager.handleInterrupt: when a non-standard EmergencyQueue is
active and the target is emergency, the interrupt is ignored; otherwise the
active queue (if any) is paused into pausedQueue and the target queue is
constructed and started. -/
def handleInterrupt (s : QMState) (targetQueue : String) : QMState :=
  match s.activeQueue with
  | some a =>
    if a ≠ stdCtx ∧ a.kind = .emergency ∧ targetQueue = "emergency" then s
    else startTargetQueue { s with pausedQueue := some a } targetQueue
  | none => startTargetQueue s targetQueue

/-- QueueManager.handleResume: resume in place when active, else promote the
paused queue. -/
def handleResume (s : QMState) : QMState :=
  match s.activeQueue with
  | some _ => s
  | none =>
    match s.pausedQueue with
    | some p => { s with activeQueue := some p, pausedQueue := none }
    | none => s

/-- QueueManager.handleReset: stop everything and clear both slots. -/
def handleReset (s : QMState) : QMState :=
  { s with activeQueue := none, pausedQueue := none }

/-- QueueManager.handleStatusUpdate: start the standard queue when nothing
is active. -/
def handleStatusUpdate (s : QMState) : QMState :=
  match s.activeQueue with
  | some _ => s
  | none => { s with activeQueue := some stdCtx }

/-- QueueManager.handleQueueComplete: destroy the completed temporary queue
(when one is active and the completed type is not standard), then promote
the paused queue if any, else restart the standard queue. -/
def handleQueueComplete (s : QMState) (queueType : String) : QMState :=
  let s1 := if s.activeQueue.isSome ∧ queueType ≠ "standard"
    then { s with activeQueue := none } else s
  match s1.pausedQueue with
  | some p => { s1 with activeQueue := some p, pausedQueue := none }
  | none => { s1 with activeQueue := some stdCtx }

/-- The inputs driving the QueueManager state machine: processEvent switched
on response.actionRequired (with the interrupt case carrying
response.targetQueue), plus the queue-completion callbacks the manager
installs on the temporary queues. -/
inductive QMInput
  | interrupt (targetQueue : String)
  | pauseCmd
  | resumeCmd
  | resetCmd
  | statusUpdate
  | queueComplete (queueType : String)
deriving DecidableEq, Repr

/-- One step of the QueueManager: QueueManager.processEvent (handlePause
changes neither slot) or a completion callback. -/
def qmStep (s : QMState) : QMInput → QMState
  | .interrupt target => handleInterrupt s target
  | .pauseCmd => s
  | .resumeCmd => handleResume s
  | .resetCmd => handleReset s
  | .statusUpdate => handleStatusUpdate s
  | .queueComplete qt => handleQueueComplete s qt

/-- Run a sequence of inputs from a starting state. -/
def qmRun (s : QMState) (inputs : List QMInput) : QMState :=
  inputs.foldl qmStep s

/-- An interrupt input is well-targeted when its target queue names one of
the two preemptive context classes. -/
def wellTargeted : QMInput → Prop
  | .interrupt target => target = "emergency" ∨ target = "respawn"
  | _ => True

/-- Context sanity relative to the id allocator: a slot holds either the
persistent standard queue or a previously constructed temporary context. -/
def ctxOk (n : Nat) : Option Ctx → Prop
  | none => True
  | some c => c = stdCtx ∨ (c.kind ≠ .standard ∧ c.id < n)

/-- The inductive invariant for the QueueManager state machine: both slots
hold sane contexts, a paused queue only exists alongside an active one, and
the two slots never alias. -/
def qmInv (s : QMState) : Prop :=
  ctxOk s.nextId s.activeQueue ∧ ctxOk s.nextId s.pausedQueue ∧
    (s.pausedQueue ≠ none → s.activeQueue ≠ none) ∧
    ∀ c : Ctx, ¬(s.activeQueue = some c ∧ s.pausedQueue = some c)

/- ===================== Events.handleHealth (src/Bot/Events.js) ===================== -/

/-- The fields of an EventMessage that the health path populates. -/
structure EventMessage where
  eventType : String
  priority : Nat
  actionRequired : String
  targetQueue : Option String
  isCritical : Bool
deriving DecidableEq, Repr

/-- Events.handleHealth: given the remembered lastHealth/lastFood and the
fresh bot.health/bot.food, the events dispatched in order.  Thresholds from
the source: DAMAGE_THRESHOLD = 0.5, HEALTH_CRITICAL_THRESHOLD = 6,
HUNGER_CRITICAL_THRESHOLD = 10.  createEventMessage defaults
actionRequired to none and targetQueue to null when the response object is
empty. -/
def handleHealth (lastHealth lastFood health food : ℚ) : List EventMessage :=
  if health = lastHealth ∧ food = lastFood then []
  else
    let damageEvents :=
      if health < lastHealth ∧ (1 : ℚ) / 2 ≤ lastHealth - health then
        let isCritical := health ≤ 6
        [{ eventType := "damage_received"
           priority := if isCritical then 1 else 2
           actionRequired := if isCritical then "interrupt" else "none"
           targetQueue := if isCritical then some "emergency" else none
           isCritical := isCritical }]
      else []
    let hungerEvents :=
      if food < 10 ∧ (10 : ℚ) ≤ lastFood then
        [{ eventType := "hunger_critical", priority := 2,
           actionRequired := "interrupt", targetQueue := some "emergency",
           isCritical := true }]
      else []
    damageEvents ++ hungerEvents

/- ===================== EmergencyQueue (src/unnamed/part_005) ===================== -/

/-- What the EmergencyQueue constructor can end up holding in its
emergencyContext field: the emergency context object built by the manager,
the winston logger object (which has no type property), or undefined. -/
inductive CtxSlot
  | emergencyCtx (ctxType : String) (source : String) (severity : String)
  | loggerObj
  | undefinedArg
deriving DecidableEq, Repr

/-- Reading slot.type as JS does: only a real emergency context yields a
defined type string. -/
def ctxTypeOf : CtxSlot → Option String
  | .emergencyCtx t _ _ => some t
  | .loggerObj => none
  | .undefinedArg => none

/-- QueueManager.startEmergencyQueue invokes the EmergencyQueue constructor
with eight positional arguments, the logger seventh and the built
emergencyContext eighth; the constructor declares seven parameters, so its
seventh parameter (emergencyContext) binds the seventh argument — the
logger — and the eighth argument is dropped (JS extra-argument semantics).
This function returns the value the constructed queue actually stores in
this.emergencyContext. -/
def managerBoundEmergencyContext (builtCtx : CtxSlot) : CtxSlot :=
  let argumentList : List CtxSlot :=
    [.undefinedArg, .undefinedArg, .undefinedArg, .undefinedArg, .undefinedArg, .undefinedArg, .loggerObj, builtCtx]
  (argumentList.get? 6).getD .undefinedArg

/-- The emergency context object QueueManager.startEmergencyQueue builds
from the event (type damage for damage_received, else hunger). -/
def builtEmergencyContext (eventType : String) (isCritical : Bool) : CtxSlot :=
  .emergencyCtx (if eventType = "damage_received" then "damage" else "hunger")
    "unknown" (if isCritical then "critical" else "high")

/-- An entity near the bot: name and distance. -/
structure NearEntity where
  entityName : String
  distance : ℚ
deriving DecidableEq, Repr

/-- The world snapshot the emergency reflex reads from the bot. -/
structure EmergencyWorld where
  health : ℚ
  food : ℚ
  inventory : List String
  entities : List NearEntity
  pvpAvailable : Bool
  lavaFireNearby : Bool
deriving Repr

/-- A queued emergency action (actionName plus the one parameter the reflex
fills in). -/
structure EAction where
  actionName : String
  parameter : String
deriving DecidableEq, Repr

/-- Healing items checked by the damage reflex, in priority order. -/
def healingItems : List String := ["golden_apple", "apple", "bread", "cooked_beef"]

/-- Hostile mob names checked by the damage reflex. -/
def reflexHostileTypes : List String :=
  ["zombie", "skeleton", "creeper", "spider", "witch", "enderman"]

/-- EmergencyQueue.executeDamageReflex: queue a healing consumeItem when
health is at most 6 and a healing item is in the inventory; then, when a
hostile mob is within 16 blocks, queue attack (pvp available and health
above 10) or flee at the nearest threat. -/
def executeDamageReflex (w : EmergencyWorld) : List EAction :=
  let healing :=
    if w.health ≤ 6 then
      match healingItems.find? (fun it => w.inventory.contains it) with
      | some it => [⟨"consumeItem", it⟩]
      | none => []
    else []
  let hostiles := w.entities.filter
    (fun e => reflexHostileTypes.contains e.entityName && decide (e.distance < 16))
  let threat :=
    match hostiles with
    | [] => []
    | m :: rest =>
      let nearest := rest.foldl (fun best e => if e.distance < best.distance then e else best) m
      if w.pvpAvailable && decide (10 < w.health) then
        [⟨"attack", nearest.entityName⟩]
      else
        [⟨"flee", nearest.entityName⟩]
  healing ++ threat

/-- Food names matched by the hunger reflex filter. -/
def hungerFoodMatch (n : String) : Bool :=
  strIncludes n "apple" || strIncludes n "bread" || strIncludes n "cooked" ||
    strIncludes n "carrot" || strIncludes n "potato"

/-- The fixed food value ranking of the hunger reflex. -/
def foodValue (n : String) : Int :=
  if n = "golden_apple" then 10
  else if n = "cooked_beef" then 8
  else if n = "cooked_porkchop" then 8
  else if n = "bread" then 5
  else if n = "apple" then 4
  else if n = "carrot" then 3
  else if n = "potato" then 1
  else 0

/-- EmergencyQueue.executeHungerReflex: pick the highest-valued matching
food in the inventory (first of the maxima, per stable sort) and queue
consumeItem for it. -/
def executeHungerReflex (w : EmergencyWorld) : List EAction :=
  let foods := w.inventory.filter hungerFoodMatch
  match foods with
  | [] => []
  | f :: rest =>
    let best := rest.foldl (fun b n => if foodValue b < foodValue n then n else b) f
    [⟨"consumeItem", best⟩]

/-- EmergencyQueue.executeImmediateReflex: switch on
this.emergencyContext.type; any value other than damage or hunger (in
particular undefined, when the logger was bound into the context slot) hits
the default branch and queues nothing. -/
def executeImmediateReflex (ctype : Option String) (w : EmergencyWorld) : List EAction :=
  match ctype with
  | some "damage" => executeDamageReflex w
  | some "hunger" => executeHungerReflex w
  | _ => []

/-- EmergencyQueue.identifyThreats restricted to entity threats plus the
environmental lava/fire probe: hostile types within 20 blocks, then one
environmental entry when lava or fire is within 5 blocks. -/
def threatHostileTypes : List String :=
  ["zombie", "skeleton", "creeper", "spider", "witch", "enderman", "blaze", "ghast"]

/-- Number of threats identifyThreats would report. -/
def identifyThreatsCount (w : EmergencyWorld) : Nat :=
  (w.entities.filter
      (fun e => threatHostileTypes.contains e.entityName && decide (e.distance < 20))).length
    + (if w.lavaFireNearby then 1 else 0)

/-- EmergencyQueue.checkEmergencyCondition resolution test: switch on the
emergency type; damage resolves at health at least 15 with no threats,
hunger at food at least 15; any other type (including undefined) leaves
resolved false. -/
def emergencyResolved (ctype : Option String) (w : EmergencyWorld) : Bool :=
  match ctype with
  | some "damage" => decide (15 ≤ w.health) && identifyThreatsCount w == 0
  | some "hunger" => decide (15 ≤ w.food)
  | _ => false

/-- JS exceptions relevant to the emergency planning round. -/
inductive JsException
  | referenceError (ident : String)
  | other (msg : String)
deriving DecidableEq, Repr

/-- EmergencyQueue.requestEmergencyPlan: when the planner round succeeds its
validated actions are appended to the queue; when it fails, the catch block
evaluates the identifier handleError, which is not defined anywhere in the
module (and the variable err is likewise unbound), so the catch itself
raises a ReferenceError that escapes requestEmergencyPlan (the comment
Continue with reflex actions only is never reached). -/
def requestEmergencyPlan (plannerRound : Except String (List EAction))
    (queue : List EAction) : Except JsException (List EAction) :=
  match plannerRound with
  | .ok acts => .ok (queue ++ acts)
  | .error _ => .error (.referenceError "handleError is not defined")

/-- The state-machine transition StandardQueue.executeCurrentAction sends
after running one action. -/
inductive SQTransition
  | success
  | failure
deriving DecidableEq, Repr

/-- StandardQueue.executeCurrentAction error containment: the body is
wrapped in try/catch; a thrown or timed-out action is caught, routed through
this.errorRecovery.handleError and converted into a FAILURE transition —
the method itself never rethrows.  Modelled on the action outcome. -/
def standardExecuteCurrentAction (outcome : Except String Unit) : SQTransition :=
  match outcome with
  | .ok _ => .success
  | .error _ => .failure

/- ===================== EventDispatcher / PriorityQueue (src/unnamed/part_004) ===================== -/

/-- An event as the dispatcher sees it: its declared priority (1 highest to
5 lowest) and its arrival index in dispatch order. -/
structure DispatchEvent where
  priority : Int
  arrival : Nat
deriving DecidableEq, Repr

instance : Inhabited DispatchEvent := ⟨⟨0, 0⟩⟩

/-- An element of the custom PriorityQueue: the (inverted) priority passed
in the enqueue options, and the closed-over event message standing in for
the run closure. -/
structure QElement where
  priority : Int
  ev : DispatchEvent
deriving DecidableEq, Repr

instance : Inhabited QElement := ⟨⟨0, default⟩⟩

/-- EventDispatcher.invertPriority: priority 1 becomes 0, priority 5
becomes 4. -/
def invertPriority (priority : Int) : Int := priority - 1

/-- The binary-search loop of PriorityQueue.enqueue: narrow low and high
until they meet; the probe reads this._queue[mid].priority and moves high
down when it exceeds the new element's priority, low up otherwise. -/
def findIns (q : List QElement) (p : Int) (low high : Nat) : Nat :=
  if h : low < high then
    let mid := (low + high) / 2
    if p < (q.getD mid default).priority then findIns q p low mid
    else findIns q p (mid + 1) high
  else low
termination_by high - low
decreasing_by
  all_goals simp_wf
  all_goals omega

/-- PriorityQueue.enqueue: binary search for the insertion point, then
splice the element in at that index. -/
def enqueue (q : List QElement) (e : QElement) : List QElement :=
  let low := findIns q e.priority 0 q.length
  q.take low ++ e :: q.drop low

/-- Dispatch a list of event priorities arriving in order, starting from
arrival index k and queue q: each dispatch call enqueues with the inverted
priority (EventDispatcher.dispatch).  The returned list is the queue
content, which is exactly the order the single worker dequeues
(PriorityQueue.dequeue shifts the front) and hence the order of the
sequential processEvent calls under concurrency = 1. -/
def dispatchFrom (k : Nat) (q : List QElement) : List Int → List QElement
  | [] => q
  | p :: rest =>
    dispatchFrom (k + 1) (enqueue q ⟨invertPriority p, ⟨p, k⟩⟩) rest

/-- All events dispatched into an initially empty queue. -/
def dispatchAll (events : List Int) : List QElement :=
  dispatchFrom 0 [] events

/-- The dispatched events tagged with their arrival indices starting at k. -/
def taggedFrom (k : Nat) : List Int → List DispatchEvent
  | [] => []
  | p :: rest => ⟨p, k⟩ :: taggedFrom (k + 1) rest

/-- The processing order the spec prescribes: strictly ascending in the
lexicographic key (priority, arrival) — ascending priority value, ties
broken by arrival order. -/
def dispLt (a b : QElement) : Prop :=
  a.ev.priority < b.ev.priority ∨
    (a.ev.priority = b.ev.priority ∧ a.ev.arrival < b.ev.arrival)

/-- Internal consistency of a queue element: its stored priority is the
inverted priority of its event. -/
def wfElem (x : QElement) : Prop := x.priority = x.ev.priority - 1

/-- Reference ordered insertion: insert e before the first strictly greater
stored priority, after all less-or-equal ones (the upper-bound position the
binary search computes). -/
def insertUB (e : QElement) : List QElement → List QElement
  | [] => [e]
  | x :: xs => if e.priority < x.priority then e :: x :: xs else x :: insertUB e xs

/- ===================== Theorems ===================== -/

/-- C10: For every call to BotStateManager.updateHealth(health, food), the
lastDamageTime field is left unchanged: the damage branch compares the new
health against state.lastHealth only after state.lastHealth has already
been overwritten with the new value, so its condition can never hold and
damage timestamps are never recorded through health updates. -/
theorem updateHealth_preserves_lastDamageTime
    (s : BSMHealthState) (health food : ℚ) (now : Nat) :
    (updateHealth s health food now).lastDamageTime = s.lastDamageTime := by
  unfold updateHealth
  dsimp only
  split
  · rfl
  · split
    · next h =>
      simp only [Bool.and_eq_true, decide_eq_true_eq] at h
      exact absurd h.2 (lt_irrefl health)
    · rfl

/-- Helper for C7: one handleError call for a recurring retry-strategy
error, starting from an empty recoveryAttempts map, reads attempts = 0
under its fresh errorId, returns the first-attempt result and leaves the
map empty again. -/
theorem handleErrorRetryStep_fresh (strategy : RecoveryStrategy) (k : Nat) :
    handleErrorRetryStep strategy ⟨[], k⟩ =
      (⟨[], k + 1⟩, executeRecoveryRetry strategy 0) := by
  simp [handleErrorRetryStep, executeRecoveryRetry, List.find?, List.filter]
  split <;> simp_all [executeRecoveryRetry]

/-- Helper for C7: over any number of consecutive handleError calls, every
result is the attempts = 0 result of the strategy. -/
theorem handleErrorRetryRun_all_fresh (strategy : RecoveryStrategy) :
    ∀ (n k : Nat),
      (handleErrorRetryRun strategy n ⟨[], k⟩).2.all
        (fun r => r == executeRecoveryRetry strategy 0) = true := by
  intro n
  induction n with
  | zero => intro k; simp [handleErrorRetryRun]
  | succ m ih =>
    intro k
    simp only [handleErrorRetryRun, handleErrorRetryStep_fresh]
    simp [ih (k + 1)]

/-- C7 (refuting the boundedness claim): because every handleError call
generates a fresh uuid errorId keying the recoveryAttempts counter, the
attempt count read is always 0, so for any number n of consecutive
handleError calls for the same recurring error the RETRY strategy returns
the retry_action result every single time (never max_retries_exceeded),
and RETRY_WITH_BACKOFF returns retry_with_delay with the constant
first-attempt delay min(1000 * 2^0, 10000) = 1000 every single time (never
abort_action).  The escalation branches of executeRecovery are
unreachable. -/
theorem retryStrategies_never_escalate (n : Nat) :
    (handleErrorRetryRun .retry n RecoveryState.initial).2.all
        (fun r => r == ⟨"retry_action", true, false, none⟩) = true ∧
    (handleErrorRetryRun .retryWithBackoff n RecoveryState.initial).2.all
        (fun r => r == ⟨"retry_with_delay", true, false, some 1000⟩) = true := by
  refine ⟨?_, ?_⟩
  · have h := handleErrorRetryRun_all_fresh .retry n 0
    simpa [executeRecoveryRetry, RecoveryState.initial] using h
  · have h := handleErrorRetryRun_all_fresh .retryWithBackoff n 0
    simpa [executeRecoveryRetry, RecoveryState.initial] using h

/-- C8 counterexample: an error matching no known pattern whose message is
exactly foo not found bar, but carrying an E-prefixed code together with a
syscall property, is classified network/high (3) by the heuristic that runs
before the not-found heuristic — not resource/low (1) as claimed. -/
def c8Err : JsError := ⟨some "EFOO", some "foo not found bar", true⟩

/-- C8 counterexample theorem: c8Err matches no known pattern, its message
is foo not found bar, yet classifyError yields network/3, not resource/1. -/
theorem classifyError_notfound_counterexample :
    (errorPatterns.all (fun p => !patternMatches c8Err p.1)) = true ∧
    c8Err.message = some "foo not found bar" ∧
    classifyError c8Err = ⟨.network, 3, none⟩ ∧
    classifyError c8Err ≠ ⟨.resource, 1, none⟩ := by
  refine ⟨by decide, rfl, by decide, by decide⟩

/-- C8 (amended): classification is deterministic and
pattern-priority-ordered.  An error with code ECONNREFUSED always
classifies as network/high (3) regardless of message text (ECONNREFUSED is
the first table entry and the code comparison matches before any message
is consulted).  An error matching no known pattern whose message is foo not
found bar classifies as resource/low (1) provided it does not also carry an
E-prefixed code together with a syscall property (that earlier heuristic
otherwise wins, as the counterexample shows). -/
theorem classifyError_spec :
    (∀ (msg : Option String) (sys : Bool),
      classifyError ⟨some "ECONNREFUSED", msg, sys⟩ = ⟨.network, 3, some "ECONNREFUSED"⟩) ∧
    (∀ e : JsError, e.message = some "foo not found bar" →
      (∀ p ∈ errorPatterns, patternMatches e p.1 = false) →
      (codeStarts e "E" && e.syscall) = false →
      classifyError e = ⟨.resource, 1, none⟩) := by
  constructor
  · intro msg sys
    simp [classifyError, errorPatterns, List.find?, patternMatches]
  · intro e hm hnp hcs
    have hfind : errorPatterns.find? (fun p => patternMatches e p.1) = none := by
      rw [List.find?_eq_none]
      intro x hx
      simp [hnp x hx]
    unfold classifyError
    rw [hfind]
    have hv : msgHas e "validation" = false := by simp [msgHas, hm]; decide
    have hi : msgHas e "invalid" = false := by simp [msgHas, hm]; decide
    have ht : msgHas e "timeout" = false := by simp [msgHas, hm]; decide
    have ht2 : msgHas e "timed out" = false := by simp [msgHas, hm]; decide
    have hn : msgHas e "not found" = true := by simp [msgHas, hm]; decide
    simp [hcs, hv, hi, ht, ht2, hn]

/-- C8 witness: classifyError_spec applied at concrete errors. -/
theorem classifyError_spec_witness :
    classifyError ⟨some "ECONNREFUSED", some "totally unrelated text", false⟩ =
      ⟨.network, 3, some "ECONNREFUSED"⟩ ∧
    classifyError ⟨none, some "foo not found bar", false⟩ = ⟨.resource, 1, none⟩ :=
  ⟨classifyError_spec.1 (some "totally unrelated text") false,
   classifyError_spec.2 ⟨none, some "foo not found bar", false⟩ rfl (by decide) (by decide)⟩

/-- C5 (refuting the containment claim for EmergencyQueue): when the
emergency planning round fails, the catch block of
EmergencyQueue.requestEmergencyPlan itself raises a ReferenceError (it
calls the undefined function handleError with the undefined variable err),
so the exception escapes the context instead of being contained — for
every failing planner round and every queue content. -/
theorem emergency_plan_failure_escapes (msg : String) (q : List EAction) :
    requestEmergencyPlan (.error msg) q =
      .error (.referenceError "handleError is not defined") := rfl

/-- Helper for C9: the all-success execution loop starting at index i runs
exactly the suffix of the queue from i on. -/
theorem sqRunTrace_eq_drop (q : List EnhancedAction) (i : Nat) :
    sqRunTrace q i = q.drop i := by
  rw [sqRunTrace]
  split
  · next h =>
    rw [sqRunTrace_eq_drop q (i + 1)]
    exact (List.drop_eq_getElem_cons h).symm
  · next h =>
    rw [List.drop_eq_nil_of_le (by omega)]
termination_by q.length - i

/-- C9: for the standard context, a pause issued mid-plan followed by a
resume (no reset in between) continues at the same currentActionIndex over
the same remaining action list — the actions already executed (the prefix
up to the index) together with the resumed trace make up exactly the stored
queue, so nothing is duplicated or skipped; and when the stored queue is
empty at resume time the context requests a new plan instead. -/
theorem standard_pause_resume_roundtrip (s : SQState)
    (hexec : s.isExecuting = true) (hnp : s.isPaused = false) :
    (sqPause s).currentActionIndex = s.currentActionIndex ∧
    (sqPause s).currentActionQueue = s.currentActionQueue ∧
    (0 < s.currentActionQueue.length →
      (sqResume (sqPause s)).2 = .continued ∧
      (sqResume (sqPause s)).1.currentActionIndex = s.currentActionIndex ∧
      (sqResume (sqPause s)).1.currentActionQueue = s.currentActionQueue ∧
      s.currentActionQueue.take s.currentActionIndex ++
          sqRunTrace (sqResume (sqPause s)).1.currentActionQueue
            (sqResume (sqPause s)).1.currentActionIndex
        = s.currentActionQueue) ∧
    (s.currentActionQueue.length = 0 →
      (sqResume (sqPause s)).2 = .requestedNewPlan) := by
  have hp : sqPause s = { s with isPaused := true } := by
    simp [sqPause, hexec, hnp]
  refine ⟨by rw [hp], by rw [hp], ?_, ?_⟩
  · intro hq
    have hr : sqResume (sqPause s) =
        ({ s with isPaused := false }, .continued) := by
      rw [hp]
      simp [sqResume, hexec, hq]
    refine ⟨by rw [hr], by rw [hr], by rw [hr], ?_⟩
    rw [hr]
    simp only [sqRunTrace_eq_drop]
    exact List.take_append_drop _ _
  · intro hq
    rw [hp]
    simp [sqResume, hexec, hq]

/-- C9 witness: the round trip evaluated on a concrete mid-plan state. -/
theorem standard_pause_resume_roundtrip_witness :
    (sqResume (sqPause ⟨true, false,
        [⟨"goTo", some [], "done", 30000, none, 0⟩,
         ⟨"digBlock", some [], "done", 30000, none, 1⟩], 1⟩)).2 = .continued :=
  ((standard_pause_resume_roundtrip _ rfl rfl).2.2.1 (by decide)).1

/-- Helper for C4: an all-valid array validates to the rewritten actions,
for any start index. -/
theorem validateActionQueue_ok (validator : RawAction → ValidationResult) :
    ∀ (q : List RawAction) (s : Nat),
      (∀ a ∈ q, structOk a = true ∧ (validator a).isValid = true) →
      validateActionQueue validator q s = .ok (enhanceAll validator s q) := by
  intro q
  induction q with
  | nil => intro s _; rfl
  | cons a rest ih =>
    intro s h
    have ha := h a (List.mem_cons_self a rest)
    rw [validateActionQueue]
    rw [ih (s + 1) (fun b hb => h b (List.mem_cons_of_mem a hb))]
    simp [ha.1, ha.2, enhanceAll]

/-- Helper for C4: a first invalid entry at position pre.length rejects the
whole array with that index and the validator's reason, for any start
index. -/
theorem validateActionQueue_rejects (validator : RawAction → ValidationResult) :
    ∀ (pre : List RawAction) (s : Nat) (bad : RawAction) (rest : List RawAction),
      (∀ a ∈ pre, structOk a = true ∧ (validator a).isValid = true) →
      structOk bad = true →
      (validator bad).isValid = false →
      validateActionQueue validator (pre ++ bad :: rest) s =
        .error (rejectionError (s + pre.length) bad (validator bad).reason) := by
  intro pre
  induction pre with
  | nil =>
    intro s bad rest _ hbs hbv
    rw [List.nil_append, validateActionQueue]
    simp [hbs, hbv]
  | cons a pre ih =>
    intro s bad rest h hbs hbv
    have ha := h a (List.mem_cons_self a pre)
    rw [List.cons_append, validateActionQueue]
    rw [ih (s + 1) bad rest (fun b hb => h b (List.mem_cons_of_mem a hb)) hbs hbv]
    simp only [ha.1, ha.2, Bool.not_true, Bool.false_eq_true, if_false]
    have : s + 1 + pre.length = s + (pre.length + 1) := by omega
    simp [this]

/-- C4: plan validation is all-or-nothing.  For every action array with one
invalid entry at index k (all earlier entries structure-valid and accepted
by the validator), validateActionQueue throws an LLMPlanValidationError
whose message reports index k and which carries the validator's specific
reason, returning no validated actions; for every all-valid array each
returned action is the enhanceAction rewrite of its entry — its parameters
are the validator's validatedParams (not the planner's raw parameters), its
timeoutMs is the clamped/defaulted validateTimeout result and its
originalIndex is its position. -/
theorem validateActionQueue_all_or_nothing :
    (∀ (validator : RawAction → ValidationResult)
       (pre : List RawAction) (bad : RawAction) (rest : List RawAction),
      (∀ a ∈ pre, structOk a = true ∧ (validator a).isValid = true) →
      structOk bad = true →
      (validator bad).isValid = false →
      validateActionQueue validator (pre ++ bad :: rest) 0 =
        .error (rejectionError pre.length bad (validator bad).reason)) ∧
    (∀ (validator : RawAction → ValidationResult) (q : List RawAction),
      (∀ a ∈ q, structOk a = true ∧ (validator a).isValid = true) →
      validateActionQueue validator q 0 = .ok (enhanceAll validator 0 q)) := by
  constructor
  · intro validator pre bad rest h hbs hbv
    have := validateActionQueue_rejects validator pre 0 bad rest h hbs hbv
    simpa using this
  · intro validator q h
    exact validateActionQueue_ok validator q 0 h

/-- A concrete validator for the C4 witness: accepts goTo with normalized
parameters, rejects everything else. -/
def cValidator (a : RawAction) : ValidationResult :=
  if a.actionName == some "goTo" then
    ⟨true, none, some [("speed", "normal")]⟩
  else
    ⟨false, some "Unknown action", none⟩

/-- A structure-valid goTo action with raw parameters and an out-of-range
timeout, for the C4 witness. -/
def cGoodAction : RawAction :=
  ⟨some "goTo", some [("speed", "raw")], none, some 500, none⟩

/-- A structure-valid but unknown action, for the C4 witness. -/
def cBadAction : RawAction :=
  ⟨some "fly", some [], none, none, none⟩

/-- C4 witness: validateActionQueue_all_or_nothing applied at a concrete
validator and arrays — the mixed array is rejected with index 1 and the
specific reason, the all-valid array comes back rewritten (validated
parameters, clamped timeout, recorded index). -/
theorem validateActionQueue_all_or_nothing_witness :
    validateActionQueue cValidator [cGoodAction, cBadAction, cGoodAction] 0 =
      .error (rejectionError 1 cBadAction (some "Unknown action")) ∧
    validateActionQueue cValidator [cGoodAction] 0 =
      .ok [⟨"goTo", some [("speed", "normal")], "goTo completed successfully",
            1000, none, 0⟩] := by
  constructor
  · have h := validateActionQueue_all_or_nothing.1 cValidator
      [cGoodAction] cBadAction [cGoodAction] (by decide) (by decide) (by decide)
    simpa using h
  · have h := validateActionQueue_all_or_nothing.2 cValidator [cGoodAction] (by decide)
    simpa [enhanceAll, enhanceAction, cValidator, cGoodAction,
      validateTimeout, strTruthy] using h

/-- Helper: ctxOk is monotone in the id allocator. -/
theorem ctxOk_mono {n m : Nat} (h : n ≤ m) :
    ∀ o : Option Ctx, ctxOk n o → ctxOk m o := by
  intro o
  cases o with
  | none => intro _; trivial
  | some c =>
    intro hc
    cases hc with
    | inl h1 => exact Or.inl h1
    | inr h2 => exact Or.inr ⟨h2.1, lt_of_lt_of_le h2.2 h⟩

/-- Helper: a sane context from an older allocator state is never the
freshly constructed context. -/
theorem ctxOk_ne_fresh {n : Nat} {c : Ctx} {k : QueueKind}
    (hk : k ≠ .standard) (hc : ctxOk n (some c)) : c ≠ ⟨k, n⟩ := by
  intro he
  cases hc with
  | inl h1 =>
    rw [he] at h1
    exact hk (congrArg Ctx.kind h1)
  | inr h2 =>
    rw [he] at h2
    exact absurd h2.2 (lt_irrefl n)

/-- Helper for C2: every QueueManager step on a well-targeted input
preserves the invariant. -/
theorem qmStep_inv {s : QMState} {i : QMInput}
    (hs : qmInv s) (hi : wellTargeted i) : qmInv (qmStep s i) := by
  obtain ⟨act, pau, n⟩ := s
  obtain ⟨ha, hp, hpa, hal⟩ := hs
  cases i with
  | pauseCmd => exact ⟨ha, hp, hpa, hal⟩
  | resetCmd =>
    refine ⟨trivial, trivial, fun h => absurd rfl h, fun c hc => ?_⟩
    simp [qmStep, handleReset] at hc
  | resumeCmd =>
    cases act with
    | some a => exact ⟨ha, hp, hpa, hal⟩
    | none =>
      cases pau with
      | none => exact ⟨ha, hp, hpa, hal⟩
      | some p =>
        refine ⟨hp, trivial, fun h => by simp [qmStep, handleResume], fun c hc => ?_⟩
        simp [qmStep, handleResume] at hc
  | statusUpdate =>
    cases act with
    | some a => exact ⟨ha, hp, hpa, hal⟩
    | none =>
      have hpn : pau = none := by
        by_contra hne
        exact (hpa hne) rfl
      subst hpn
      refine ⟨Or.inl rfl, trivial, fun h => by simp [qmStep, handleStatusUpdate], fun c hc => ?_⟩
      simp [qmStep, handleStatusUpdate] at hc
  | queueComplete qt =>
    simp only [qmStep, handleQueueComplete]
    by_cases hcond : act.isSome = true ∧ qt ≠ "standard"
    · rw [if_pos hcond]
      cases pau with
      | some p =>
        exact ⟨hp, trivial, fun _ => by simp, fun c hc => by simp at hc⟩
      | none =>
        exact ⟨Or.inl rfl, trivial, fun _ => by simp, fun c hc => by simp at hc⟩
    · rw [if_neg hcond]
      cases pau with
      | some p =>
        exact ⟨hp, trivial, fun _ => by simp, fun c hc => by simp at hc⟩
      | none =>
        exact ⟨Or.inl rfl, trivial, fun _ => by simp, fun c hc => by simp at hc⟩
  | interrupt target =>
    have hfresh : ∀ (k : QueueKind) (pau2 : Option Ctx), k ≠ .standard →
        ctxOk n pau2 →
        qmInv ⟨some ⟨k, n⟩, pau2, n + 1⟩ := by
      intro k pau2 hk hp2
      refine ⟨Or.inr ⟨hk, Nat.lt_succ_self n⟩,
        ctxOk_mono (Nat.le_succ n) pau2 hp2, fun _ => by simp, fun c hc => ?_⟩
      have h1 : some (⟨k, n⟩ : Ctx) = some c := hc.1
      have h2 : pau2 = some c := hc.2
      have h3 : (⟨k, n⟩ : Ctx) = c := by injection h1
      rw [h2, ← h3] at hp2
      exact ctxOk_ne_fresh hk hp2 rfl
    have hstart : ∀ (a2 pau2 : Option Ctx), ctxOk n pau2 →
        qmInv (startTargetQueue ⟨a2, pau2, n⟩ target) := by
      intro a2 pau2 hp2
      cases hi with
      | inl hem =>
        subst hem
        simp only [startTargetQueue, if_pos rfl]
        exact hfresh .emergency pau2 (by decide) hp2
      | inr hrs =>
        subst hrs
        simp only [startTargetQueue, if_true, String.reduceEq, if_false]
        exact hfresh .respawn pau2 (by decide) hp2
    cases act with
    | none => exact hstart none pau hp
    | some a =>
      show qmInv (if a ≠ stdCtx ∧ a.kind = .emergency ∧ target = "emergency"
        then ⟨some a, pau, n⟩
        else startTargetQueue ⟨some a, some a, n⟩ target)
      by_cases hg : a ≠ stdCtx ∧ a.kind = .emergency ∧ target = "emergency"
      · rw [if_pos hg]
        exact ⟨ha, hp, hpa, hal⟩
      · rw [if_neg hg]
        exact hstart (some a) (some a) ha

/-- Helper for C2: the invariant holds along any well-targeted run. -/
theorem qmRun_inv :
    ∀ (inputs : List QMInput) (s : QMState), qmInv s →
      (∀ i ∈ inputs, wellTargeted i) → qmInv (qmRun s inputs) := by
  intro inputs
  induction inputs with
  | nil => intro s hs _; exact hs
  | cons i rest ih =>
    intro s hs h
    exact ih (qmStep s i) (qmStep_inv hs (h i (List.mem_cons_self i rest)))
      (fun j hj => h j (List.mem_cons_of_mem i hj))

/-- C2 counterexample: an interrupt event whose targetQueue is neither
emergency nor respawn (here the string chat) pauses the active standard
queue into pausedQueue while leaving it active, so after the run
activeQueue and pausedQueue reference the same context object — the claimed
invariant fails on exactly the path the claim singles out. -/
theorem qm_alias_counterexample :
    (qmRun qmInitial [.statusUpdate, .interrupt "chat"]).activeQueue = some stdCtx ∧
    (qmRun qmInitial [.statusUpdate, .interrupt "chat"]).pausedQueue = some stdCtx := by
  decide

/-- C2 (amended): for every sequence of processEvent calls and
queue-completion callbacks in which every interrupt event's targetQueue is
emergency or respawn, the QueueManager — whose activeQueue and pausedQueue
fields structurally hold at most one context each — never ends up with
activeQueue and pausedQueue referencing the same context object.  (The
restriction is forced by the counterexample: an unknown targetQueue pauses
the active queue without installing a new one, aliasing the two slots.) -/
theorem qm_no_alias (inputs : List QMInput)
    (h : ∀ i ∈ inputs, wellTargeted i) :
    ∀ c : Ctx, ¬((qmRun qmInitial inputs).activeQueue = some c ∧
      (qmRun qmInitial inputs).pausedQueue = some c) := by
  have hinit : qmInv qmInitial := by
    refine ⟨trivial, trivial, fun hh => absurd rfl hh, fun c hc => ?_⟩
    simp [qmInitial] at hc
  exact (qmRun_inv inputs qmInitial hinit h).2.2.2

/-- C2 witness: qm_no_alias on a concrete well-targeted run. -/
theorem qm_no_alias_witness :
    ¬((qmRun qmInitial [.statusUpdate, .interrupt "emergency",
        .queueComplete "emergency"]).activeQueue = some stdCtx ∧
      (qmRun qmInitial [.statusUpdate, .interrupt "emergency",
        .queueComplete "emergency"]).pausedQueue = some stdCtx) :=
  qm_no_alias _ (by
    intro i hi
    simp only [List.mem_cons, List.not_mem_nil, or_false] at hi
    rcases hi with h | h | h <;> subst h <;> simp [wellTargeted]) stdCtx

/-- C6 counterexample: two respawn interrupts in a row.  The second one is
not ignored — the guard in handleInterrupt only covers an active
EmergencyQueue with an emergency target — so the active RespawnQueue is
paused into pausedQueue and a second RespawnQueue instance is constructed
(the allocator advances), contradicting the claim for the respawn half. -/
theorem qm_respawn_interrupt_not_ignored :
    (qmRun qmInitial [.interrupt "respawn"]).activeQueue = some ⟨.respawn, 1⟩ ∧
    (qmRun qmInitial [.interrupt "respawn"]).pausedQueue = none ∧
    (qmRun qmInitial [.interrupt "respawn", .interrupt "respawn"]).pausedQueue =
      some ⟨.respawn, 1⟩ ∧
    (qmRun qmInitial [.interrupt "respawn", .interrupt "respawn"]).activeQueue =
      some ⟨.respawn, 2⟩ ∧
    (qmRun qmInitial [.interrupt "respawn", .interrupt "respawn"]).nextId = 3 := by
  decide

/-- C6 (amended): only the emergency case is deduplicated.  For every state
with an active EmergencyQueue, an interrupt targeting emergency is ignored
outright — activeQueue and pausedQueue are unchanged and no context is
constructed — so two damage_received interrupts in a row yield exactly one
EmergencyQueue instance; a respawn interrupt during an active RespawnQueue
is not ignored (see the counterexample). -/
theorem qm_emergency_interrupt_noop :
    (∀ (s : QMState) (a : Ctx), s.activeQueue = some a → a.kind = .emergency →
      qmStep s (.interrupt "emergency") = s) ∧
    qmRun qmInitial [.statusUpdate, .interrupt "emergency", .interrupt "emergency"] =
      qmRun qmInitial [.statusUpdate, .interrupt "emergency"] := by
  constructor
  · intro s a hact hkind
    have hne : a ≠ stdCtx := by
      intro he
      rw [he] at hkind
      exact absurd hkind (by decide)
    simp [qmStep, handleInterrupt, hact, hne, hkind]
  · decide

/-- C6 witness: qm_emergency_interrupt_noop applied at a concrete state
with an active EmergencyQueue. -/
theorem qm_emergency_interrupt_noop_witness :
    qmStep ⟨some ⟨.emergency, 1⟩, some stdCtx, 2⟩ (.interrupt "emergency") =
      ⟨some ⟨.emergency, 1⟩, some stdCtx, 2⟩ :=
  qm_emergency_interrupt_noop.1 ⟨some ⟨.emergency, 1⟩, some stdCtx, 2⟩
    ⟨.emergency, 1⟩ rfl rfl

/-- The world snapshot of the C3 scenario: health just dropped to 4, a
golden apple in the inventory, no hostile entities in range. -/
def c3World : EmergencyWorld :=
  { health := 4, food := 20, inventory := ["golden_apple"], entities := [],
    pvpAvailable := false, lavaFireNearby := false }

/-- C3 (documenting the constructor-arity bug): the Event Translator half
of the scenario holds — a 20 to 4 health drop makes handleHealth emit one
damage_received event with priority 1, actionRequired interrupt and
targetQueue emergency — and the damage reflex itself, given the intended
damage context, would queue exactly consumeItem(golden_apple) and resolve
at health 15 with no threats.  But QueueManager.startEmergencyQueue passes
eight constructor arguments to the seven-parameter EmergencyQueue, so the
queue's emergencyContext is the logger, its type is undefined, the reflex
switch hits the default branch queueing nothing, and the resolution check
never fires — the claimed end-to-end behaviour does not occur. -/
theorem emergency_scenario_reflex_dead :
    handleHealth 20 20 4 20 =
      [⟨"damage_received", 1, "interrupt", some "emergency", true⟩] ∧
    (qmRun qmInitial [.statusUpdate, .interrupt "emergency"]).pausedQueue =
      some stdCtx ∧
    (qmRun qmInitial [.statusUpdate, .interrupt "emergency"]).activeQueue =
      some ⟨.emergency, 1⟩ ∧
    executeDamageReflex c3World = [⟨"consumeItem", "golden_apple"⟩] ∧
    executeImmediateReflex (some "damage") c3World = [⟨"consumeItem", "golden_apple"⟩] ∧
    emergencyResolved (some "damage") { c3World with health := 15 } = true ∧
    managerBoundEmergencyContext (builtEmergencyContext "damage_received" true) =
      .loggerObj ∧
    ctxTypeOf (managerBoundEmergencyContext (builtEmergencyContext "damage_received" true)) =
      none ∧
    executeImmediateReflex
      (ctxTypeOf (managerBoundEmergencyContext (builtEmergencyContext "damage_received" true)))
      c3World = [] ∧
    emergencyResolved
      (ctxTypeOf (managerBoundEmergencyContext (builtEmergencyContext "damage_received" true)))
      { c3World with health := 15 } = false := by
  refine ⟨?_, by decide, by decide, by decide, by decide, by decide, by decide,
    by decide, by decide, by decide⟩
  norm_num [handleHealth]

/-- Helper: getD at an in-bounds index is get. -/
theorem getD_eq_get :
    ∀ (q : List QElement) (i : Nat) (h : i < q.length),
      q.getD i default = q.get ⟨i, h⟩ := by
  intro q
  induction q with
  | nil => intro i h; simp at h
  | cons x xs ih =>
    intro i h
    cases i with
    | zero => rfl
    | succ k => exact ih k (by simpa using h)

/-- Helper: dispLt implies non-strict priority order on the events. -/
theorem dispLt_le {a b : QElement} (h : dispLt a b) :
    a.ev.priority ≤ b.ev.priority := by
  cases h with
  | inl h1 => exact le_of_lt h1
  | inr h2 => exact le_of_eq h2.1

/-- Helper: a queue of consistent elements that is strictly sorted in the
dispatch order is monotone in the stored priorities, index-wise. -/
theorem pairwise_priority_mono (q : List QElement)
    (hpw : q.Pairwise dispLt) (hwf : ∀ x ∈ q, wfElem x) :
    ∀ i j : Nat, i ≤ j → j < q.length →
      (q.getD i default).priority ≤ (q.getD j default).priority := by
  intro i j hij hj
  rcases eq_or_lt_of_le hij with heq | hlt
  · subst heq; exact le_refl _
  · have hi : i < q.length := lt_trans hlt hj
    rw [getD_eq_get q i hi, getD_eq_get q j hj]
    have h := (List.pairwise_iff_get.mp hpw) ⟨i, hi⟩ ⟨j, hj⟩ hlt
    have hwi := hwf (q.get ⟨i, hi⟩) (q.get_mem _ _)
    have hwj := hwf (q.get ⟨j, hj⟩) (q.get_mem _ _)
    unfold wfElem at hwi hwj
    have := dispLt_le h
    omega

/-- Helper for C1: the binary-search loop of PriorityQueue.enqueue computes
the upper-bound insertion point.  Given a priority-monotone queue, search
bounds inside the array, everything before low at most p and everything
from high on strictly greater, the returned index keeps those two
properties and stays between low and high. -/
theorem findIns_spec (q : List QElement) (p : Int)
    (mono : ∀ i j : Nat, i ≤ j → j < q.length →
      (q.getD i default).priority ≤ (q.getD j default).priority)
    (low high : Nat) (hlh : low ≤ high) (hhl : high ≤ q.length)
    (hlow : ∀ i, i < low → (q.getD i default).priority ≤ p)
    (hhigh : ∀ i, high ≤ i → i < q.length → p < (q.getD i default).priority) :
    low ≤ findIns q p low high ∧ findIns q p low high ≤ high ∧
    (∀ i, i < findIns q p low high → (q.getD i default).priority ≤ p) ∧
    (∀ i, findIns q p low high ≤ i → i < q.length →
      p < (q.getD i default).priority) := by
  rw [findIns]
  by_cases h : low < high
  · rw [dif_pos h]
    by_cases hc : p < (q.getD ((low + high) / 2) default).priority
    · rw [if_pos hc]
      have hhigh2 : ∀ i, (low + high) / 2 ≤ i → i < q.length →
          p < (q.getD i default).priority := by
        intro i hi hil
        exact lt_of_lt_of_le hc (mono ((low + high) / 2) i hi hil)
      have ih := findIns_spec q p mono low ((low + high) / 2)
        (by omega) (by omega) hlow hhigh2
      obtain ⟨i1, i2, i3, i4⟩ := ih
      exact ⟨i1, by omega, i3, i4⟩
    · rw [if_neg hc]
      have hle : (q.getD ((low + high) / 2) default).priority ≤ p := le_of_not_lt hc
      have hlow2 : ∀ i, i < (low + high) / 2 + 1 →
          (q.getD i default).priority ≤ p := by
        intro i hi
        exact le_trans (mono i ((low + high) / 2) (by omega) (by omega)) hle
      have ih := findIns_spec q p mono ((low + high) / 2 + 1) high
        (by omega) hhl hlow2 hhigh
      obtain ⟨i1, i2, i3, i4⟩ := ih
      exact ⟨by omega, i2, i3, i4⟩
  · rw [dif_neg h]
    exact ⟨le_refl _, by omega, fun i hi => hlow i hi,
      fun i hi hil => hhigh i (by omega) hil⟩
termination_by high - low

/-- Helper for C1: splicing at the upper-bound position is exactly the
reference ordered insertion. -/
theorem splice_eq_insertUB (e : QElement) :
    ∀ (q : List QElement) (r : Nat), r ≤ q.length →
      (∀ i, i < r → (q.getD i default).priority ≤ e.priority) →
      (∀ i, r ≤ i → i < q.length → e.priority < (q.getD i default).priority) →
      q.take r ++ e :: q.drop r = insertUB e q := by
  intro q
  induction q with
  | nil =>
    intro r hr _ _
    have : r = 0 := Nat.le_zero.mp hr
    subst this
    rfl
  | cons x xs ih =>
    intro r hr hlo hhi
    cases r with
    | zero =>
      have hx : e.priority < x.priority := by
        have := hhi 0 (le_refl 0) (by simp)
        simpa using this
      simp [insertUB, hx]
    | succ k =>
      have hx : x.priority ≤ e.priority := by
        have := hlo 0 (Nat.succ_pos k)
        simpa using this
      have hnx : ¬(e.priority < x.priority) := not_lt.mpr hx
      simp only [List.take_succ_cons, List.drop_succ_cons, insertUB,
        if_neg hnx, List.cons_append]
      congr 1
      refine ih k (by simpa using hr) ?_ ?_
      · intro i hi
        have := hlo (i + 1) (by omega)
        simpa using this
      · intro i hi hil
        have := hhi (i + 1) (by omega) (by simpa using hil)
        simpa using this

/-- Helper for C1: ordered insertion permutes to a plain cons. -/
theorem insertUB_perm (e : QElement) :
    ∀ q : List QElement, (insertUB e q).Perm (e :: q) := by
  intro q
  induction q with
  | nil => exact List.Perm.refl _
  | cons x xs ih =>
    by_cases hc : e.priority < x.priority
    · simp [insertUB, hc]
    · simp only [insertUB, if_neg hc]
      exact (ih.cons x).trans (List.Perm.swap e x xs)

/-- Helper for C1: ordered insertion of a later arrival with a consistent
priority keeps the queue strictly sorted in dispatch order. -/
theorem insertUB_pairwise (e : QElement) :
    ∀ q : List QElement, q.Pairwise dispLt →
      (∀ x ∈ q, wfElem x ∧ x.ev.arrival < e.ev.arrival) → wfElem e →
      (insertUB e q).Pairwise dispLt := by
  intro q
  induction q with
  | nil => intro _ _ _; simp [insertUB]
  | cons x xs ih =>
    intro hpw hmem hwfe
    obtain ⟨hx, hxs⟩ := List.pairwise_cons.mp hpw
    have hwx := (hmem x (List.mem_cons_self x xs)).1
    by_cases hc : e.priority < x.priority
    · simp only [insertUB, if_pos hc]
      refine List.pairwise_cons.mpr ⟨?_, hpw⟩
      intro y hy
      have hex : e.ev.priority < x.ev.priority := by
        unfold wfElem at hwfe hwx
        omega
      rcases List.mem_cons.mp hy with rfl | hyx
      · exact Or.inl hex
      · exact Or.inl (lt_of_lt_of_le hex (dispLt_le (hx y hyx)))
    · simp only [insertUB, if_neg hc]
      refine List.pairwise_cons.mpr
        ⟨?_, ih hxs (fun z hz => hmem z (List.mem_cons_of_mem x hz)) hwfe⟩
      intro y hy
      have hy2 : y ∈ e :: xs := (insertUB_perm e xs).subset hy
      rcases List.mem_cons.mp hy2 with rfl | hy3
      · have hxe : x.ev.priority ≤ y.ev.priority := by
          unfold wfElem at hwfe hwx
          omega
        rcases lt_or_eq_of_le hxe with hlt | heq
        · exact Or.inl hlt
        · exact Or.inr ⟨heq, (hmem x (List.mem_cons_self x xs)).2⟩
      · exact hx y hy3

/-- Helper for C1: dispatching a batch of events into a consistent,
strictly sorted queue keeps consistency and strict sortedness, and the
resulting processing order is a permutation of the old queue plus the newly
tagged events. -/
theorem dispatchFrom_spec :
    ∀ (events : List Int) (k : Nat) (q : List QElement),
      (∀ x ∈ q, wfElem x ∧ x.ev.arrival < k) →
      q.Pairwise dispLt →
      (∀ x ∈ dispatchFrom k q events, wfElem x) ∧
      (dispatchFrom k q events).Pairwise dispLt ∧
      ((dispatchFrom k q events).map QElement.ev).Perm
        (q.map QElement.ev ++ taggedFrom k events) := by
  intro events
  induction events with
  | nil =>
    intro k q hq hpw
    exact ⟨fun x hx => (hq x hx).1, hpw, by simp [dispatchFrom, taggedFrom]⟩
  | cons p rest ih =>
    intro k q hq hpw
    have hwfq : ∀ x ∈ q, wfElem x := fun x hx => (hq x hx).1
    have hmono := pairwise_priority_mono q hpw hwfq
    have hspec := findIns_spec q (invertPriority p) hmono 0 q.length
      (Nat.zero_le _) (le_refl _) (fun i hi => absurd hi (Nat.not_lt_zero i))
      (fun i hi hil => absurd hil (by omega))
    have henq : enqueue q ⟨invertPriority p, ⟨p, k⟩⟩ =
        insertUB ⟨invertPriority p, ⟨p, k⟩⟩ q := by
      unfold enqueue
      exact splice_eq_insertUB ⟨invertPriority p, ⟨p, k⟩⟩ q _
        hspec.2.1 hspec.2.2.1 hspec.2.2.2
    have hq2 : ∀ x ∈ insertUB ⟨invertPriority p, ⟨p, k⟩⟩ q,
        wfElem x ∧ x.ev.arrival < k + 1 := by
      intro x hx
      have hx2 : x ∈ (⟨invertPriority p, ⟨p, k⟩⟩ : QElement) :: q :=
        (insertUB_perm _ q).subset hx
      rcases List.mem_cons.mp hx2 with rfl | hxq
      · exact ⟨rfl, Nat.lt_succ_self k⟩
      · exact ⟨(hq x hxq).1, Nat.lt_succ_of_lt (hq x hxq).2⟩
    have hpw2 := insertUB_pairwise ⟨invertPriority p, ⟨p, k⟩⟩ q hpw hq rfl
    have ihh := ih (k + 1) (insertUB ⟨invertPriority p, ⟨p, k⟩⟩ q) hq2 hpw2
    have hstep : dispatchFrom k q (p :: rest) =
        dispatchFrom (k + 1) (insertUB ⟨invertPriority p, ⟨p, k⟩⟩ q) rest := by
      rw [dispatchFrom, henq]
    rw [hstep]
    refine ⟨ihh.1, ihh.2.1, ?_⟩
    have hm : ((insertUB ⟨invertPriority p, ⟨p, k⟩⟩ q).map QElement.ev).Perm
        ((⟨p, k⟩ : DispatchEvent) :: q.map QElement.ev) :=
      (insertUB_perm _ q).map QElement.ev
    have h1 := ihh.2.2.trans (hm.append_right (taggedFrom (k + 1) rest))
    have h2 : (((⟨p, k⟩ : DispatchEvent) :: q.map QElement.ev) ++
        taggedFrom (k + 1) rest).Perm
        (q.map QElement.ev ++ taggedFrom k (p :: rest)) := by
      rw [taggedFrom, List.cons_append]
      exact (List.perm_middle).symm
    exact h1.trans h2

/-- C1: for every sequence of dispatched events, the order in which the
single worker hands events to QueueManager.processEvent — the queue drain
order, each call completing before the next starts under concurrency = 1 —
is a permutation of the dispatched events that is strictly ascending in the
lexicographic key (priority value, arrival index): a stable sort by
ascending priority (1 highest … 5 lowest) with ties broken by arrival
order, as produced by the ordered binary-search insertion with inverted
priorities in the custom PriorityQueue. -/
theorem dispatcher_processing_order (events : List Int) :
    ((dispatchAll events).map QElement.ev).Perm (taggedFrom 0 events) ∧
    (dispatchAll events).Pairwise dispLt := by
  have h := dispatchFrom_spec events 0 []
    (fun x hx => absurd hx (List.not_mem_nil x)) List.Pairwise.nil
  exact ⟨by simpa using h.2.2, h.2.1⟩

end PiepsLama
